import Mathlib

/-!
Verification development for the runner game (src/runner.py).

The definitions below are a shallow embedding of the Python source:
rectangles (pygame.Rect) become integer quadruples, the pygame
colliderect test becomes a boolean predicate, the axis-separated
collision resolver of Player.move becomes two pure functions moveX and
moveY, the Inventory methods become functions on association lists, the
Grid plus Game.generate world generator becomes explicit state passing
with the global random source modelled as a stream of rationals, and
the Player physics state machine (Player.impulse, Player.update)
becomes a step function on an explicit player state.
-/

namespace Runner

/-- pygame.Rect: integer position and size.  pygame truncates all
coordinates to integers, so Int fields are the faithful carrier. -/
structure Rect where
  x : Int
  y : Int
  w : Int
  h : Int
deriving DecidableEq, Repr

/-- The raw pygame accessor Rect.left (the stored x, no normalisation). -/
def Rect.left (r : Rect) : Int := r.x

/-- The raw pygame accessor Rect.right = x + w. -/
def Rect.right (r : Rect) : Int := r.x + r.w

/-- The raw pygame accessor Rect.top (the stored y). -/
def Rect.top (r : Rect) : Int := r.y

/-- The raw pygame accessor Rect.bottom = y + h. -/
def Rect.bottom (r : Rect) : Int := r.y + r.h

/-- Assigning pygame Rect.right moves the rect so its right edge is v. -/
def Rect.setRight (r : Rect) (v : Int) : Rect := { r with x := v - r.w }

/-- Assigning pygame Rect.left moves the rect so its left edge is v. -/
def Rect.setLeft (r : Rect) (v : Int) : Rect := { r with x := v }

/-- Assigning pygame Rect.bottom moves the rect so its bottom edge is v. -/
def Rect.setBottom (r : Rect) (v : Int) : Rect := { r with y := v - r.h }

/-- Assigning pygame Rect.top moves the rect so its top edge is v. -/
def Rect.setTop (r : Rect) (v : Int) : Rect := { r with y := v }

/-- Solid.collided, i.e. pygame Rect.colliderect: strict inequalities on
both axes, so rectangles that merely touch along an edge do NOT collide. -/
def collided (a b : Rect) : Bool :=
  a.x < b.x + b.w && b.x < a.x + a.w && a.y < b.y + b.h && b.y < a.y + a.h

/-- Area of the overlap of two rectangles: the product of the clamped
overlap extents on each axis. -/
def overlapArea (a b : Rect) : Int :=
  max 0 (min (a.x + a.w) (b.x + b.w) - max a.x b.x) *
    max 0 (min (a.y + a.h) (b.y + b.h) - max a.y b.y)

/-- Solid.collisions via pygame.sprite.spritecollide: the obstacles of
the group whose hitbox collides with the given hitbox, in group order. -/
def collisionsList (hb : Rect) (solids : List Rect) : List Rect :=
  solids.filter (fun o => collided hb o)

/-- Python min(list, key=f): the first element attaining the minimum,
here folded from a head element over the tail. -/
def minBy (f : Rect → Int) (c : Rect) (cs : List Rect) : Rect :=
  cs.foldl (fun best d => if f d < f best then d else best) c

/-- Python max(list, key=f): the first element attaining the maximum. -/
def maxBy (f : Rect → Int) (c : Rect) (cs : List Rect) : Rect :=
  cs.foldl (fun best d => if f d > f best then d else best) c

/-- Physics configuration, the dict built by Player.physicsDictionary. -/
structure PhysCfg where
  jump : Int
  gravity : Int
  maxFall : Int
  maxSpeed : Int
  speed : Int
  jumps : Int
deriving DecidableEq, Repr

/-- Player physics state: hitbox, speed vector, remaining jumps. -/
structure PState where
  hitbox : Rect
  vx : Int
  vy : Int
  jumps : Int
deriving DecidableEq, Repr

/-- Player.__init__: speed vector (0,0) and zero available jumps. -/
def mkPlayer (hb : Rect) : PState :=
  { hitbox := hb, vx := 0, vy := 0, jumps := 0 }

/-- The tentative x translation self.hitbox.x += displacement.x. -/
def xShift (r : Rect) (d : Int) : Rect := ⟨r.x + d, r.y, r.w, r.h⟩

/-- The tentative y translation self.hitbox.y += displacement.y. -/
def yShift (r : Rect) (d : Int) : Rect := ⟨r.x, r.y + d, r.w, r.h⟩

/-- First half of Player.move: tentatively shift the hitbox by the x
displacement, and if that collides, snap to the closest obstacle in the
direction of travel and zero the horizontal speed. -/
def moveX (p : PState) (dx : Int) (solids : List Rect) : PState :=
  match collisionsList (xShift p.hitbox dx) solids with
  | [] => { p with hitbox := xShift p.hitbox dx }
  | c :: cs =>
    if dx > 0 then
      { p with hitbox := (xShift p.hitbox dx).setRight (minBy Rect.left c cs).left,
               vx := 0 }
    else
      { p with hitbox := (xShift p.hitbox dx).setLeft (maxBy Rect.right c cs).right,
               vx := 0 }

/-- Second half of Player.move: tentatively shift the hitbox by the y
displacement, and if that collides, snap to the closest obstacle in the
direction of travel and zero the vertical speed; a downward collision
additionally resets the remaining jumps to the configured maximum. -/
def moveY (cfg : PhysCfg) (p : PState) (dy : Int) (solids : List Rect) : PState :=
  match collisionsList (yShift p.hitbox dy) solids with
  | [] => { p with hitbox := yShift p.hitbox dy }
  | c :: cs =>
    if dy > 0 then
      { p with hitbox := (yShift p.hitbox dy).setBottom (minBy Rect.top c cs).top,
               vy := 0, jumps := cfg.jumps }
    else
      { p with hitbox := (yShift p.hitbox dy).setTop (maxBy Rect.bottom c cs).bottom,
               vy := 0 }

/-- Player.move: x axis resolved fully before the y axis. -/
def move (cfg : PhysCfg) (p : PState) (disp : Int × Int) (solids : List Rect) :
    PState :=
  moveY cfg (moveX p disp.1 solids) disp.2 solids

/-- The Python min with a key returns an element whose key is a lower
bound for the keys of the head and of every element of the tail. -/
lemma minBy_le (f : Rect → Int) :
    ∀ (cs : List Rect) (c : Rect), ∀ o ∈ c :: cs, f (minBy f c cs) ≤ f o := by
  intro cs
  induction cs with
  | nil =>
    intro c o ho
    have : o = c := by simpa using ho
    subst this
    simp [minBy]
  | cons d ds ih =>
    intro c o ho
    have hu : minBy f c (d :: ds) = minBy f (if f d < f c then d else c) ds := rfl
    have hhead : f (minBy f (if f d < f c then d else c) ds) ≤
        f (if f d < f c then d else c) :=
      ih _ _ (List.mem_cons_self _ _)
    rcases List.mem_cons.mp ho with rfl | ho2
    · rw [hu]
      refine le_trans hhead ?hc
      split_ifs with h
      · omega
      · exact le_refl _
    · rcases List.mem_cons.mp ho2 with rfl | ho3
      · rw [hu]
        refine le_trans hhead ?hd
        split_ifs with h
        · exact le_refl _
        · omega
      · rw [hu]
        exact ih _ _ (List.mem_cons_of_mem _ ho3)

/-- The Python max with a key returns an element whose key is an upper
bound for the keys of the head and of every element of the tail. -/
lemma le_maxBy (f : Rect → Int) :
    ∀ (cs : List Rect) (c : Rect), ∀ o ∈ c :: cs, f o ≤ f (maxBy f c cs) := by
  intro cs
  induction cs with
  | nil =>
    intro c o ho
    have : o = c := by simpa using ho
    subst this
    simp [maxBy]
  | cons d ds ih =>
    intro c o ho
    have hu : maxBy f c (d :: ds) = maxBy f (if f d > f c then d else c) ds := rfl
    have hhead : f (if f d > f c then d else c) ≤
        f (maxBy f (if f d > f c then d else c) ds) :=
      ih _ _ (List.mem_cons_self _ _)
    rcases List.mem_cons.mp ho with rfl | ho2
    · rw [hu]
      refine le_trans ?hc hhead
      split_ifs with h
      · omega
      · exact le_refl _
    · rcases List.mem_cons.mp ho2 with rfl | ho3
      · rw [hu]
        refine le_trans ?hd hhead
        split_ifs with h
        · exact le_refl _
        · omega
      · rw [hu]
        exact ih _ _ (List.mem_cons_of_mem _ ho3)

/-- If the right edge of a is at or left of the left edge of b, the
overlap area vanishes. -/
lemma overlapArea_of_right_le (a b : Rect) (h : a.x + a.w ≤ b.x) :
    overlapArea a b = 0 := by
  unfold overlapArea
  have hx : max 0 (min (a.x + a.w) (b.x + b.w) - max a.x b.x) = 0 := by omega
  rw [hx, zero_mul]

/-- If the left edge of a is at or right of the right edge of b, the
overlap area vanishes. -/
lemma overlapArea_of_le_left (a b : Rect) (h : b.x + b.w ≤ a.x) :
    overlapArea a b = 0 := by
  unfold overlapArea
  have hx : max 0 (min (a.x + a.w) (b.x + b.w) - max a.x b.x) = 0 := by omega
  rw [hx, zero_mul]

/-- If the bottom edge of a is at or above the top edge of b, the
overlap area vanishes. -/
lemma overlapArea_of_bottom_le (a b : Rect) (h : a.y + a.h ≤ b.y) :
    overlapArea a b = 0 := by
  unfold overlapArea
  have hy : max 0 (min (a.y + a.h) (b.y + b.h) - max a.y b.y) = 0 := by omega
  rw [hy, mul_zero]

/-- If the top edge of a is at or below the bottom edge of b, the
overlap area vanishes. -/
lemma overlapArea_of_le_top (a b : Rect) (h : b.y + b.h ≤ a.y) :
    overlapArea a b = 0 := by
  unfold overlapArea
  have hy : max 0 (min (a.y + a.h) (b.y + b.h) - max a.y b.y) = 0 := by omega
  rw [hy, mul_zero]

end Runner

namespace Runner

/-- C1: for every body hitbox, displacement, and set of static
obstacles, after the collision resolver finishes resolving one axis
(X for moveX, Y for moveY), the body hitbox has zero overlapping area
with every obstacle whose hitbox intersected the tentatively moved
hitbox along that axis. -/
theorem C1_axis_resolution_zero_overlap (cfg : PhysCfg) (p : PState)
    (dx dy : Int) (solids : List Rect) (o : Rect) (ho : o ∈ solids) :
    (collided (xShift p.hitbox dx) o = true →
      overlapArea (moveX p dx solids).hitbox o = 0) ∧
    (collided (yShift p.hitbox dy) o = true →
      overlapArea (moveY cfg p dy solids).hitbox o = 0) := by
  constructor
  · intro hcol
    have hmem : o ∈ collisionsList (xShift p.hitbox dx) solids :=
      List.mem_filter.mpr ⟨ho, hcol⟩
    cases hL : collisionsList (xShift p.hitbox dx) solids with
    | nil => rw [hL] at hmem; simp at hmem
    | cons c cs =>
      rw [hL] at hmem
      have hmv : moveX p dx solids =
          if dx > 0 then
            { p with
                hitbox := Rect.setRight (xShift p.hitbox dx)
                  (minBy Rect.left c cs).left,
                vx := 0 }
          else
            { p with
                hitbox := Rect.setLeft (xShift p.hitbox dx)
                  (maxBy Rect.right c cs).right,
                vx := 0 } := by
        unfold moveX
        rw [hL]
      rw [hmv]
      split_ifs with hdx
      · apply overlapArea_of_right_le
        have hb := minBy_le Rect.left cs c o hmem
        simp only [Rect.setRight, Rect.left] at hb ⊢
        omega
      · apply overlapArea_of_le_left
        have hb := le_maxBy Rect.right cs c o hmem
        simp only [Rect.setLeft, Rect.right] at hb ⊢
        omega
  · intro hcol
    have hmem : o ∈ collisionsList (yShift p.hitbox dy) solids :=
      List.mem_filter.mpr ⟨ho, hcol⟩
    cases hL : collisionsList (yShift p.hitbox dy) solids with
    | nil => rw [hL] at hmem; simp at hmem
    | cons c cs =>
      rw [hL] at hmem
      have hmv : moveY cfg p dy solids =
          if dy > 0 then
            { p with
                hitbox := Rect.setBottom (yShift p.hitbox dy)
                  (minBy Rect.top c cs).top,
                vy := 0, jumps := cfg.jumps }
          else
            { p with
                hitbox := Rect.setTop (yShift p.hitbox dy)
                  (maxBy Rect.bottom c cs).bottom,
                vy := 0 } := by
        unfold moveY
        rw [hL]
      rw [hmv]
      split_ifs with hdy
      · apply overlapArea_of_bottom_le
        have hb := minBy_le Rect.top cs c o hmem
        simp only [Rect.setBottom, Rect.top] at hb ⊢
        omega
      · apply overlapArea_of_le_top
        have hb := le_maxBy Rect.bottom cs c o hmem
        simp only [Rect.setTop, Rect.bottom] at hb ⊢
        omega

/-- C1 witness: a concrete rightward move into a single block ends with
zero overlap against that block. -/
theorem C1_axis_resolution_zero_overlap_witness :
    overlapArea (moveX (mkPlayer ⟨0, 0, 20, 20⟩) 10 [⟨25, 0, 32, 32⟩]).hitbox
      ⟨25, 0, 32, 32⟩ = 0 :=
  (C1_axis_resolution_zero_overlap
      { jump := 19, gravity := 1, maxFall := 32, maxSpeed := 7, speed := 2,
        jumps := 1 }
      (mkPlayer ⟨0, 0, 20, 20⟩) 10 0 [⟨25, 0, 32, 32⟩] ⟨25, 0, 32, 32⟩
      (by simp)).1 (by decide)

/-- C2 counterexample: two tiles that merely touch along an edge (right
edge of the first equals left edge of the second, overlap area zero) do
NOT satisfy the collision test of Solid.collided. -/
theorem C2_touching_edges_counterexample :
    collided ⟨0, 0, 32, 32⟩ ⟨32, 0, 32, 32⟩ = false ∧
      Rect.right ⟨0, 0, 32, 32⟩ = Rect.left ⟨32, 0, 32, 32⟩ ∧
      overlapArea ⟨0, 0, 32, 32⟩ ⟨32, 0, 32, 32⟩ = 0 := by
  decide

/-- C2 amended: for rectangles of positive extent the detection test of
Solid.collided is a strict-overlap (open rectangle) test: it holds
exactly when the overlapping area is positive, so touching edges do not
count as intersecting. -/
theorem C2_amended_strict_overlap_iff (a b : Rect)
    (haw : 0 < a.w) (hah : 0 < a.h) (hbw : 0 < b.w) (hbh : 0 < b.h) :
    collided a b = true ↔ 0 < overlapArea a b := by
  unfold collided overlapArea
  have hx : 0 ≤ max 0 (min (a.x + a.w) (b.x + b.w) - max a.x b.x) :=
    le_max_left 0 _
  have hy : 0 ≤ max 0 (min (a.y + a.h) (b.y + b.h) - max a.y b.y) :=
    le_max_left 0 _
  constructor
  · intro h
    simp only [Bool.and_eq_true, decide_eq_true_eq] at h
    apply mul_pos <;> omega
  · intro h
    simp only [Bool.and_eq_true, decide_eq_true_eq]
    rcases mul_pos_iff.mp h with ⟨h1, h2⟩ | ⟨h1, h2⟩ <;> omega

/-- C2 amended witness: two genuinely overlapping tiles collide and
have positive overlap area. -/
theorem C2_amended_strict_overlap_iff_witness :
    collided ⟨0, 0, 32, 32⟩ ⟨16, 16, 32, 32⟩ = true ↔
      0 < overlapArea ⟨0, 0, 32, 32⟩ ⟨16, 16, 32, 32⟩ :=
  C2_amended_strict_overlap_iff ⟨0, 0, 32, 32⟩ ⟨16, 16, 32, 32⟩
    (by decide) (by decide) (by decide) (by decide)

end Runner

namespace Runner

/-- First-match lookup in an association list, the model of reading a
Python dict entry. -/
def lookupInv (inv : List (String × Int)) (k : String) : Option Int :=
  match inv with
  | [] => none
  | kv :: rest => if kv.1 = k then some kv.2 else lookupInv rest k

/-- Python dict assignment: replace the value in place if the key
exists, otherwise append the new pair (insertion order preserved). -/
def setPair (inv : List (String × Int)) (k : String) (v : Int) :
    List (String × Int) :=
  match inv with
  | [] => [(k, v)]
  | kv :: rest => if kv.1 = k then (k, v) :: rest else kv :: setPair rest k v

/-- The two exception classes Inventory can raise: KeyError from a raw
dict lookup of a missing key, ValueError from the explicit raise in
Inventory.take. -/
inductive InvErr
  | keyError
  | valueError
deriving DecidableEq, Repr

namespace Inventory

/-- Inventory.__getitem__: the quantity of the item, 0 if absent. -/
def getItem (inv : List (String × Int)) (name : String) : Int :=
  (lookupInv inv name).getD 0

/-- Inventory.__setitem__: sets the quantity, with no validation. -/
def setItem (inv : List (String × Int)) (name : String) (quantity : Int) :
    List (String × Int) :=
  setPair inv name quantity

/-- Inventory.take, with the storage threaded explicitly: the raw dict
read self.storage[item] raises KeyError on a missing key; a present but
insufficient quantity raises ValueError; otherwise the quantity is
decremented and the remaining amount returned.  The second component is
the storage at return or raise time (no mutation precedes a raise). -/
def take (inv : List (String × Int)) (item : String) (num : Int) :
    Except InvErr Int × List (String × Int) :=
  match lookupInv inv item with
  | none => (Except.error InvErr.keyError, inv)
  | some q =>
    if q ≥ num then (Except.ok (q - num), setPair inv item (q - num))
    else (Except.error InvErr.valueError, inv)

/-- Inventory.collect: for each item of the other inventory, add its
quantity to this one (self[item] += other[item], via the 0-defaulting
getter and the raw setter). -/
def collect (inv other : List (String × Int)) : List (String × Int) :=
  other.foldl
    (fun acc kv => setItem acc kv.1 (getItem acc kv.1 + getItem other kv.1)) inv

/-- The storage effect of Inventory.clean: drop every entry whose
quantity is 0 (the source also returns the dropped names). -/
def clean (inv : List (String × Int)) : List (String × Int) :=
  inv.filter (fun kv => kv.2 != 0)

end Inventory

/-- The inventory invariant of the design: no stored quantity negative. -/
def Nonneg (inv : List (String × Int)) : Prop := ∀ kv ∈ inv, 0 ≤ kv.2

instance (inv : List (String × Int)) : Decidable (Nonneg inv) :=
  decidable_of_iff (∀ kv ∈ inv, 0 ≤ kv.2) Iff.rfl

/-- Every member of an updated association list is the new pair or an
old member. -/
lemma mem_setPair {inv : List (String × Int)} {k : String} {v : Int}
    {kv : String × Int} (h : kv ∈ setPair inv k v) :
    kv = (k, v) ∨ kv ∈ inv := by
  induction inv with
  | nil => simpa [setPair] using h
  | cons hd rest ih =>
    unfold setPair at h
    split_ifs at h with he
    · rcases List.mem_cons.mp h with rfl | hrest
      · exact Or.inl rfl
      · exact Or.inr (List.mem_cons_of_mem _ hrest)
    · rcases List.mem_cons.mp h with rfl | hrest
      · exact Or.inr (List.mem_cons_self _ _)
      · rcases ih hrest with hl | hr
        · exact Or.inl hl
        · exact Or.inr (List.mem_cons_of_mem _ hr)

/-- A successful lookup returns the value of a member pair. -/
lemma lookupInv_mem {inv : List (String × Int)} {k : String} {q : Int}
    (h : lookupInv inv k = some q) : (k, q) ∈ inv := by
  induction inv with
  | nil => simp [lookupInv] at h
  | cons hd rest ih =>
    unfold lookupInv at h
    split_ifs at h with he
    · obtain ⟨rfl⟩ : hd.2 = q := by simpa using h
      have : hd = (k, hd.2) := by
        cases hd
        simp_all
      rw [← he]
      exact this ▸ List.mem_cons_self _ _
    · exact List.mem_cons_of_mem _ (ih h)

/-- In a non-negative inventory the 0-defaulting getter is non-negative. -/
lemma getItem_nonneg {inv : List (String × Int)} (h : Nonneg inv)
    (k : String) : 0 ≤ Inventory.getItem inv k := by
  unfold Inventory.getItem
  cases hq : lookupInv inv k with
  | none => simp
  | some q =>
    have := h (k, q) (lookupInv_mem hq)
    simpa using this

/-- setItem preserves non-negativity when the new quantity is such. -/
lemma setItem_nonneg {inv : List (String × Int)} {k : String} {q : Int}
    (h : Nonneg inv) (hq : 0 ≤ q) : Nonneg (Inventory.setItem inv k q) := by
  intro kv hkv
  rcases mem_setPair hkv with rfl | hmem
  · exact hq
  · exact h kv hmem

/-- The collect fold preserves non-negativity of the accumulator when
the source inventory is non-negative. -/
lemma collect_fold_nonneg (other : List (String × Int)) (hoth : Nonneg other) :
    ∀ (l acc : List (String × Int)), Nonneg acc →
      Nonneg (l.foldl
        (fun acc kv =>
          Inventory.setItem acc kv.1
            (Inventory.getItem acc kv.1 + Inventory.getItem other kv.1)) acc) := by
  intro l
  induction l with
  | nil => intro acc hacc; exact hacc
  | cons hd rest ih =>
    intro acc hacc
    exact ih _ (setItem_nonneg hacc
      (add_nonneg (getItem_nonneg hacc hd.1) (getItem_nonneg hoth hd.1)))

end Runner

namespace Runner

/-- C6 counterexample: withdrawing from an absent item (quantity 0 under
the 0-defaulting getter) raises KeyError, the lookup error of the raw
dict access, not the ValueError domain error the claim states. -/
theorem C6_take_absent_counterexample :
    Inventory.take [] "coin" 1 = (Except.error InvErr.keyError, []) ∧
      InvErr.keyError ≠ InvErr.valueError :=
  ⟨rfl, by decide⟩

/-- C6 amended: take on an absent key raises KeyError with the storage
untouched; take on a present key with insufficient quantity raises
ValueError with the storage untouched (all-or-nothing); take on a
present key with sufficient quantity decrements by num and returns the
amount remaining. -/
theorem C6_amended_take_semantics (inv : List (String × Int)) (item : String)
    (num : Int) :
    (lookupInv inv item = none →
      Inventory.take inv item num = (Except.error InvErr.keyError, inv)) ∧
    (∀ q, lookupInv inv item = some q → q < num →
      Inventory.take inv item num = (Except.error InvErr.valueError, inv)) ∧
    (∀ q, lookupInv inv item = some q → num ≤ q →
      Inventory.take inv item num =
        (Except.ok (q - num), setPair inv item (q - num))) := by
  refine ⟨fun h => ?hn, fun q hq hlt => ?hv, fun q hq hge => ?hk⟩
  · unfold Inventory.take
    rw [h]
  · simp only [Inventory.take, hq]
    split_ifs with hc
    · omega
    · rfl
  · simp only [Inventory.take, hq]
    split_ifs with hc
    · rfl
    · omega

/-- C6 amended witness: a concrete sufficient withdrawal succeeds and
decrements in place. -/
theorem C6_amended_take_semantics_witness :
    Inventory.take [("coin", 2)] "coin" 1 =
      (Except.ok (2 - 1), setPair [("coin", 2)] "coin" (2 - 1)) :=
  (C6_amended_take_semantics [("coin", 2)] "coin" 1).2.2 2 rfl (by decide)

/-- C7 counterexample: the raw setter performs no validation, so a
single setItem with a negative quantity breaks the no-negative-quantity
invariant starting from a non-negative (empty) inventory. -/
theorem C7_negative_set_counterexample :
    Nonneg ([] : List (String × Int)) ∧
      ¬ Nonneg (Inventory.setItem [] "x" (-1)) := by
  constructor
  · intro kv hkv
    simp at hkv
  · intro h
    have := h ("x", -1) (by simp [Inventory.setItem, setPair])
    omega

/-- C7 amended: starting from non-negative inventories, setItem with a
non-negative quantity, take (always: a withdrawal that would go
negative is rejected before mutating), collect from a non-negative
source, and clean all preserve the no-negative-quantity invariant; only
a setItem with a negative argument can break it. -/
theorem C7_amended_ops_preserve_nonneg (inv other : List (String × Int))
    (x : String) (q n : Int) (hinv : Nonneg inv) (hoth : Nonneg other) :
    (0 ≤ q → Nonneg (Inventory.setItem inv x q)) ∧
    Nonneg (Inventory.take inv x n).2 ∧
    Nonneg (Inventory.collect inv other) ∧
    Nonneg (Inventory.clean inv) := by
  refine ⟨fun hq => setItem_nonneg hinv hq, ?ht, ?hc, ?hcl⟩
  · cases hq : lookupInv inv x with
    | none =>
      simp only [Inventory.take, hq]
      exact hinv
    | some qv =>
      simp only [Inventory.take, hq]
      split_ifs with hge
      · exact setItem_nonneg hinv (by omega)
      · exact hinv
  · exact collect_fold_nonneg other hoth other inv hinv
  · intro kv hkv
    exact hinv kv (List.mem_filter.mp hkv).1

/-- C7 amended witness: a concrete application of each preservation. -/
theorem C7_amended_ops_preserve_nonneg_witness :
    Nonneg (Inventory.collect [("coin", 2)] [("gem", 1)]) :=
  (C7_amended_ops_preserve_nonneg [("coin", 2)] [("gem", 1)] "coin" 3 1
    (by decide) (by decide)).2.2.1

/-- The gravity step at the end of Player.impulse: the increment is
applied only while the vertical speed is below maxFall; there is no
clamp of the result itself. -/
def gravityStep (gravity maxFall vy : Int) : Int :=
  if vy < maxFall then vy + gravity else vy

/-- C5 counterexample: with gravity increment 2 and terminal speed 1, a
vertical speed of 0 (at most the terminal speed) becomes 2 after the
gravity step, exceeding the terminal speed: the claim fails for that
positive gravity increment. -/
theorem C5_gravity_counterexample :
    (0 : Int) ≤ 1 ∧ ¬ (gravityStep 2 1 0 ≤ 1) := by
  decide

/-- C5 amended: from a vertical speed at most maxFall, the gravity step
yields at most maxFall + (gravity - 1) for any positive gravity
increment, hence with the gravity increment 1 of the shipped
configuration the speed never exceeds maxFall. -/
theorem C5_amended_gravity_bound (gravity maxFall vy : Int)
    (h1 : vy ≤ maxFall) (h2 : 0 < gravity) :
    gravityStep gravity maxFall vy ≤ maxFall + (gravity - 1) ∧
      (gravity = 1 → gravityStep gravity maxFall vy ≤ maxFall) := by
  refine ⟨?ha, fun hg => ?hb⟩ <;> unfold gravityStep <;> split_ifs <;> omega

/-- C5 amended witness: the shipped configuration values gravity 1 and
maxFall 32 keep a falling speed of 31 within the terminal speed. -/
theorem C5_amended_gravity_bound_witness :
    gravityStep 1 32 31 ≤ 32 + (1 - 1) ∧
      ((1 : Int) = 1 → gravityStep 1 32 31 ≤ 32) :=
  C5_amended_gravity_bound 1 32 31 (by decide) (by decide)

end Runner

namespace Runner

/-- Player.accelerate_x: only attempted while strictly under maxSpeed,
then the incremented speed is clamped into [-maxSpeed, maxSpeed]. -/
def accelerateX (cfg : PhysCfg) (p : PState) (change : Int) : PState :=
  if |p.vx| < cfg.maxSpeed then
    if p.vx + change < -cfg.maxSpeed then { p with vx := -cfg.maxSpeed }
    else if p.vx + change > cfg.maxSpeed then { p with vx := cfg.maxSpeed }
    else { p with vx := p.vx + change }
  else p

/-- Player.decelerate_x: move the horizontal speed toward 0 by change,
clipping at 0 and leaving a zero speed alone. -/
def decelerateX (p : PState) (change : Int) : PState :=
  if p.vx > 0 then
    if p.vx - change < 0 then { p with vx := 0 } else { p with vx := p.vx - change }
  else if p.vx < 0 then
    if p.vx + change > 0 then { p with vx := 0 } else { p with vx := p.vx + change }
  else p

/-- A pygame event as the jump check of Player.impulse sees it: whether
it is a KEYDOWN event and whether its key is a configured jump key. -/
structure Event where
  down : Bool
  jumpKey : Bool
deriving DecidableEq, Repr

/-- The per-tick input snapshot: held left and right keys plus the
ordered event sequence of the tick. -/
structure Inputs where
  left : Bool
  right : Bool
  events : List Event
deriving DecidableEq, Repr

/-- The event loop of Player.impulse: every KEYDOWN event on a jump key
while jumps remain sets the vertical speed to the negative jump impulse
and decrements the remaining jumps. -/
def jumpEvents (cfg : PhysCfg) (events : List Event) (p : PState) : PState :=
  events.foldl
    (fun q e =>
      if e.down && e.jumpKey && decide (q.jumps > 0) then
        { q with vy := -cfg.jump, jumps := q.jumps - 1 }
      else q) p

/-- The direction selection of Player.impulse: the held-key booleans
are cast to 0/1 and subtracted, then acceleration toward the pressed
direction or deceleration when neither or both are held. -/
def horizontalStep (cfg : PhysCfg) (inp : Inputs) (p : PState) : PState :=
  if ((if inp.right then (1 : Int) else 0) - (if inp.left then 1 else 0)) = -1
    then accelerateX cfg p (-cfg.speed)
  else if ((if inp.right then (1 : Int) else 0) - (if inp.left then 1 else 0)) = 1
    then accelerateX cfg p cfg.speed
  else decelerateX p cfg.speed

/-- Player.impulse: horizontal acceleration or deceleration from the
held keys, then the jump-event loop, then the gravity step. -/
def impulse (cfg : PhysCfg) (inp : Inputs) (p : PState) : PState :=
  ⟨(jumpEvents cfg inp.events (horizontalStep cfg inp p)).hitbox,
    (jumpEvents cfg inp.events (horizontalStep cfg inp p)).vx,
    gravityStep cfg.gravity cfg.maxFall
      (jumpEvents cfg inp.events (horizontalStep cfg inp p)).vy,
    (jumpEvents cfg inp.events (horizontalStep cfg inp p)).jumps⟩

/-- Player.update restricted to the physics state: impulse, then move
by the updated speed vector against the solid set (Player.collect only
touches the inventory and the visual rect is derived state). -/
def update (cfg : PhysCfg) (inp : Inputs) (solids : List Rect) (p : PState) :
    PState :=
  move cfg (impulse cfg inp p) ((impulse cfg inp p).vx, (impulse cfg inp p).vy)
    solids

/-- Player states reachable from construction through game ticks. -/
inductive Reachable (cfg : PhysCfg) : PState → Prop
  | init (hb : Rect) : Reachable cfg (mkPlayer hb)
  | step (p : PState) (inp : Inputs) (solids : List Rect) :
      Reachable cfg p → Reachable cfg (update cfg inp solids p)

/-- Horizontal acceleration never touches the jump counter or the
vertical speed. -/
lemma accelerateX_jumps_vy (cfg : PhysCfg) (p : PState) (change : Int) :
    (accelerateX cfg p change).jumps = p.jumps ∧
      (accelerateX cfg p change).vy = p.vy := by
  unfold accelerateX
  split_ifs <;> exact ⟨rfl, rfl⟩

/-- Horizontal deceleration never touches the jump counter or the
vertical speed. -/
lemma decelerateX_jumps_vy (p : PState) (change : Int) :
    (decelerateX p change).jumps = p.jumps ∧
      (decelerateX p change).vy = p.vy := by
  unfold decelerateX
  split_ifs <;> exact ⟨rfl, rfl⟩

/-- The direction selection never touches the jump counter or the
vertical speed either way. -/
lemma horizontalStep_jumps_vy (cfg : PhysCfg) (inp : Inputs) (p : PState) :
    (horizontalStep cfg inp p).jumps = p.jumps ∧
      (horizontalStep cfg inp p).vy = p.vy := by
  unfold horizontalStep
  split_ifs <;>
    first
      | exact accelerateX_jumps_vy cfg p (-cfg.speed)
      | exact accelerateX_jumps_vy cfg p cfg.speed
      | exact decelerateX_jumps_vy p cfg.speed

/-- The jump-event loop keeps the jump counter within [0, m] when it
starts there. -/
lemma jumpEvents_jumps_bounds (cfg : PhysCfg) (m : Int) :
    ∀ (events : List Event) (p : PState), 0 ≤ p.jumps → p.jumps ≤ m →
      0 ≤ (jumpEvents cfg events p).jumps ∧ (jumpEvents cfg events p).jumps ≤ m := by
  intro events
  induction events with
  | nil => intro p h1 h2; exact ⟨h1, h2⟩
  | cons e es ih =>
    intro p h1 h2
    have hu : jumpEvents cfg (e :: es) p =
        jumpEvents cfg es
          (if e.down && e.jumpKey && decide (p.jumps > 0) then
            { p with vy := -cfg.jump, jumps := p.jumps - 1 }
          else p) := rfl
    rw [hu]
    by_cases h : (e.down && e.jumpKey && decide (p.jumps > 0)) = true
    · rw [if_pos h]
      simp only [Bool.and_eq_true, decide_eq_true_eq] at h
      exact ih _ (by simp; omega) (by simp; omega)
    · rw [if_neg h]
      exact ih p h1 h2

/-- A jump-event loop starting with zero jumps leaves the whole player
state unchanged: the guard jumps > 0 fails for every event. -/
lemma jumpEvents_zero (cfg : PhysCfg) :
    ∀ (events : List Event) (p : PState), p.jumps = 0 →
      jumpEvents cfg events p = p := by
  intro events
  induction events with
  | nil => intro p _; rfl
  | cons e es ih =>
    intro p h0
    have hu : jumpEvents cfg (e :: es) p =
        jumpEvents cfg es
          (if e.down && e.jumpKey && decide (p.jumps > 0) then
            { p with vy := -cfg.jump, jumps := p.jumps - 1 }
          else p) := rfl
    rw [hu]
    have hg : (e.down && e.jumpKey && decide (p.jumps > 0)) = false := by
      simp [h0]
    rw [hg]
    simp only [Bool.false_eq_true, if_false]
    exact ih p h0

/-- The x-axis half of the resolver never touches the jump counter. -/
lemma moveX_jumps (p : PState) (dx : Int) (solids : List Rect) :
    (moveX p dx solids).jumps = p.jumps := by
  unfold moveX
  cases hL : collisionsList (xShift p.hitbox dx) solids with
  | nil => rfl
  | cons c cs => split_ifs <;> rfl

/-- The y-axis half of the resolver either keeps the jump counter or
resets it to the configured maximum (on a downward collision). -/
lemma moveY_jumps (cfg : PhysCfg) (p : PState) (dy : Int) (solids : List Rect) :
    (moveY cfg p dy solids).jumps = p.jumps ∨
      (moveY cfg p dy solids).jumps = cfg.jumps := by
  unfold moveY
  cases hL : collisionsList (yShift p.hitbox dy) solids with
  | nil => exact Or.inl rfl
  | cons c cs =>
    split_ifs
    · exact Or.inr rfl
    · exact Or.inl rfl

/-- C8: under a configuration with non-negative maximum jump count,
every reachable player state keeps the remaining-jumps counter within
[0, configured maximum]. -/
theorem C8_jump_counter_invariant (cfg : PhysCfg) (hm : 0 ≤ cfg.jumps)
    (p : PState) (hr : Reachable cfg p) :
    0 ≤ p.jumps ∧ p.jumps ≤ cfg.jumps := by
  induction hr with
  | init hb => exact ⟨le_refl 0, hm⟩
  | step q inp solids _ ih =>
    have himp : 0 ≤ (impulse cfg inp q).jumps ∧
        (impulse cfg inp q).jumps ≤ cfg.jumps := by
      have hj : (impulse cfg inp q).jumps =
          (jumpEvents cfg inp.events (horizontalStep cfg inp q)).jumps := rfl
      rw [hj]
      exact jumpEvents_jumps_bounds cfg cfg.jumps inp.events _
        (by rw [(horizontalStep_jumps_vy cfg inp q).1]; exact ih.1)
        (by rw [(horizontalStep_jumps_vy cfg inp q).1]; exact ih.2)
    unfold update move
    have hx := moveX_jumps (impulse cfg inp q)
      ((impulse cfg inp q).vx, (impulse cfg inp q).vy).1 solids
    rcases moveY_jumps cfg (moveX (impulse cfg inp q)
        ((impulse cfg inp q).vx, (impulse cfg inp q).vy).1 solids)
        ((impulse cfg inp q).vx, (impulse cfg inp q).vy).2 solids with hy | hy
    · rw [hy, hx]; exact himp
    · rw [hy]; exact ⟨hm, le_refl _⟩

/-- C8 witness: the freshly constructed player is reachable and its
counter lies within [0, 1] for the shipped configuration. -/
theorem C8_jump_counter_invariant_witness :
    0 ≤ (mkPlayer ⟨0, 0, 20, 20⟩).jumps ∧
      (mkPlayer ⟨0, 0, 20, 20⟩).jumps ≤
        ({ jump := 19, gravity := 1, maxFall := 32, maxSpeed := 7, speed := 2,
           jumps := 1 } : PhysCfg).jumps :=
  C8_jump_counter_invariant
    { jump := 19, gravity := 1, maxFall := 32, maxSpeed := 7, speed := 2,
      jumps := 1 }
    (by decide) (mkPlayer ⟨0, 0, 20, 20⟩) (Reachable.init ⟨0, 0, 20, 20⟩)

/-- The downward-landing test of a full move: positive y displacement
and a non-empty collision set after the tentative vertical shift of the
x-resolved hitbox. -/
def landed (p : PState) (disp : Int × Int) (solids : List Rect) : Bool :=
  decide (disp.2 > 0) &&
    !(collisionsList (yShift (moveX p disp.1 solids).hitbox disp.2) solids).isEmpty

/-- C10: the player is constructed with zero remaining jumps; while the
counter is zero, Player.impulse never applies the jump impulse (the
vertical speed is exactly the gravity-stepped previous speed and the
counter stays zero) for every event sequence; and a move without a
downward landing never changes the counter.  Hence the player cannot
jump before its first landing. -/
theorem C10_no_jump_before_first_landing (cfg : PhysCfg) (hb : Rect)
    (inp : Inputs) (p q : PState) (disp : Int × Int) (solids : List Rect) :
    (mkPlayer hb).jumps = 0 ∧
    (p.jumps = 0 → (impulse cfg inp p).jumps = 0 ∧
      (impulse cfg inp p).vy = gravityStep cfg.gravity cfg.maxFall p.vy) ∧
    (landed q disp solids = false →
      (move cfg q disp solids).jumps = q.jumps) := by
  refine ⟨rfl, fun h0 => ?himp, fun hland => ?hmv⟩
  · have hz : (horizontalStep cfg inp p).jumps = 0 := by
      rw [(horizontalStep_jumps_vy cfg inp p).1]; exact h0
    have hje : jumpEvents cfg inp.events (horizontalStep cfg inp p) =
        horizontalStep cfg inp p := jumpEvents_zero cfg inp.events _ hz
    have hj : (impulse cfg inp p).jumps =
        (jumpEvents cfg inp.events (horizontalStep cfg inp p)).jumps := rfl
    have hv : (impulse cfg inp p).vy =
        gravityStep cfg.gravity cfg.maxFall
          (jumpEvents cfg inp.events (horizontalStep cfg inp p)).vy := rfl
    constructor
    · rw [hj, hje]; exact hz
    · rw [hv, hje, (horizontalStep_jumps_vy cfg inp p).2]
  · unfold move
    unfold landed at hland
    rw [← moveX_jumps q disp.1 solids]
    unfold moveY
    cases hL : collisionsList (yShift (moveX q disp.1 solids).hitbox disp.2)
        solids with
    | nil => rfl
    | cons c cs =>
      rw [hL] at hland
      have hdy : ¬ (disp.2 > 0) := by
        simp only [Bool.and_eq_false_iff, decide_eq_false_iff_not,
          List.isEmpty_cons, Bool.not_false] at hland
        rcases hland with h | h
        · exact h
        · simp at h
      split_ifs
      rfl

/-- C10 witness: with the counter at zero, a tick whose event list
contains a jump keydown applies no jump impulse; gravity alone acts. -/
theorem C10_no_jump_before_first_landing_witness :
    (impulse
        { jump := 19, gravity := 1, maxFall := 32, maxSpeed := 7, speed := 2,
          jumps := 1 }
        { left := false, right := false,
          events := [{ down := true, jumpKey := true }] }
        (mkPlayer ⟨0, 0, 20, 20⟩)).jumps = 0 ∧
      (impulse
          { jump := 19, gravity := 1, maxFall := 32, maxSpeed := 7, speed := 2,
            jumps := 1 }
          { left := false, right := false,
            events := [{ down := true, jumpKey := true }] }
          (mkPlayer ⟨0, 0, 20, 20⟩)).vy =
        gravityStep 1 32 (mkPlayer ⟨0, 0, 20, 20⟩).vy :=
  (C10_no_jump_before_first_landing
      { jump := 19, gravity := 1, maxFall := 32, maxSpeed := 7, speed := 2,
        jumps := 1 }
      ⟨0, 0, 20, 20⟩
      { left := false, right := false,
        events := [{ down := true, jumpKey := true }] }
      (mkPlayer ⟨0, 0, 20, 20⟩) (mkPlayer ⟨0, 0, 20, 20⟩) (0, 0) []).2.1 rfl

end Runner

namespace Runner

/-- pygame Rect.topleft. -/
def Rect.topleft (r : Rect) : Int × Int := (r.x, r.y)

/-- pygame Rect.bottomright. -/
def Rect.bottomright (r : Rect) : Int × Int := (r.x + r.w, r.y + r.h)

/-- Grid.index: floor division of the point by the tile scale (Python
// on integers), so top and left edges belong to the owning tile. -/
def index (scale : Int) (pos : Int × Int) : Int × Int :=
  (Int.fdiv pos.1 scale, Int.fdiv pos.2 scale)

/-- The closed integer interval [lo, hi] as a list, the model of the
Python range(lo, hi + 1). -/
def intRange (lo hi : Int) : List Int :=
  (List.range (hi + 1 - lo).toNat).map (fun (n : ℕ) => lo + (n : Int))

/-- Grid.viewbox_tiles: every tile coordinate in the closed coordinate
rectangle between the index of the top-left point and the index of the
bottom-right point of the viewbox rect.  The source builds a set with a
comprehension; the list enumerates it in comprehension order. -/
def viewbox_tiles (scale : Int) (v : Rect) : List (Int × Int) :=
  (intRange (index scale v.topleft).1 (index scale v.bottomright).1).flatMap
    (fun column =>
      (intRange (index scale v.topleft).2 (index scale v.bottomright).2).map
        (fun row => (column, row)))

/-- Membership in the closed integer interval list. -/
lemma mem_intRange {c lo hi : Int} : c ∈ intRange lo hi ↔ lo ≤ c ∧ c ≤ hi := by
  simp only [intRange, List.mem_map, List.mem_range]
  constructor
  · rintro ⟨n, hn, rfl⟩
    omega
  · intro h
    exact ⟨(c - lo).toNat, by omega, by omega⟩

/-- C9: the visible-tile computation returns exactly the closed range
of tile coordinates between the index of the top-left and the index of
the bottom-right of the view rectangle on both axes, and on the
concrete viewbox from (0,0) to (63,63) at scale 32 it yields exactly
the tiles (0,0), (0,1), (1,0), (1,1). -/
theorem C9_viewbox_tiles_closed_range :
    (∀ (scale : Int) (v : Rect) (c r : Int),
      (c, r) ∈ viewbox_tiles scale v ↔
        ((index scale v.topleft).1 ≤ c ∧ c ≤ (index scale v.bottomright).1 ∧
          (index scale v.topleft).2 ≤ r ∧ r ≤ (index scale v.bottomright).2)) ∧
      viewbox_tiles 32 ⟨0, 0, 63, 63⟩ = [(0, 0), (0, 1), (1, 0), (1, 1)] := by
  constructor
  · intro scale v c r
    simp only [viewbox_tiles, List.mem_flatMap, List.mem_map, mem_intRange,
      Prod.mk.injEq]
    constructor
    · rintro ⟨col, ⟨h1, h2⟩, row, ⟨h3, h4⟩, rfl, rfl⟩
      exact ⟨h1, h2, h3, h4⟩
    · rintro ⟨h1, h2, h3, h4⟩
      exact ⟨c, ⟨h1, h2⟩, r, ⟨h3, h4⟩, rfl, rfl⟩
  · decide

end Runner

namespace Runner

/-- What the Grid stores at a decided coordinate: grid.add_block puts a
Block there whose image is either the solid block image or the space
marker image. -/
inductive TileObj
  | block
  | space
deriving DecidableEq, Repr

/-- Grid.rect: the world rectangle of a tile (origin at tile * scale,
side length scale). -/
def tileRect (scale : Int) (t : Int × Int) : Rect :=
  ⟨t.1 * scale, t.2 * scale, scale, scale⟩

/-- First-match lookup in the grid association list, the model of
reading the tile dict of Grid. -/
def lookupTile (g : List ((Int × Int) × TileObj)) (k : Int × Int) :
    Option TileObj :=
  match g with
  | [] => none
  | kv :: rest => if kv.1 = k then some kv.2 else lookupTile rest k

/-- Grid dict assignment: replace in place or append. -/
def setTile (g : List ((Int × Int) × TileObj)) (k : Int × Int) (v : TileObj) :
    List ((Int × Int) × TileObj) :=
  match g with
  | [] => [(k, v)]
  | kv :: rest => if kv.1 = k then (k, v) :: rest else kv :: setTile rest k v

/-- Generation densities, the densityConfig dict of Game.generate.  The
float draws of random.random() and the float densities are modelled as
rationals (only their ordering matters to the generator). -/
structure GenCfg where
  coinDensity : ℚ
  blockDensity : ℚ
  blockClumpRadius : ℕ
  blockClumpDensity : ℚ
deriving DecidableEq, Repr

/-- The Game state the generator touches: the grid scale, the tile
dict, and the three sprite groups (solids, spaces, collectables), each
group recorded as the list of the world rectangles of its members in
insertion order. -/
structure GenState where
  scale : Int
  grid : List ((Int × Int) × TileObj)
  solids : List Rect
  spaces : List Rect
  collectables : List Rect
deriving DecidableEq, Repr

/-- The offset pairs of the clump splash double loop, x outer, y inner,
each axis running over range(-radius, radius + 1). -/
def clumpOffsets (radius : ℕ) : List (Int × Int) :=
  (intRange (-(radius : Int)) radius).flatMap
    (fun x => (intRange (-(radius : Int)) radius).map (fun y => (x, y)))

/-- One iteration of the splash loop: draw, and if the draw is under
the clump density and the neighbour tile is undecided (or destructive
mode is on), place a Block there.  The draw is consumed in every
iteration, before the membership test, exactly as in the source. -/
def splashStep (cfg : GenCfg) (destructive : Bool) (tile : Int × Int)
    (rng : ℕ → ℚ) (acc : GenState × ℕ) (off : Int × Int) : GenState × ℕ :=
  match acc with
  | (st, i) =>
    if rng i < cfg.blockClumpDensity then
      if destructive ||
          (lookupTile st.grid (tile.1 + off.1, tile.2 + off.2)).isNone then
        ({ st with
            grid := setTile st.grid (tile.1 + off.1, tile.2 + off.2)
              TileObj.block,
            solids := st.solids ++
              [tileRect st.scale (tile.1 + off.1, tile.2 + off.2)] },
          i + 1)
      else (st, i + 1)
    else (st, i + 1)

/-- The per-tile body of Game.generate: skip a decided tile (in
non-destructive mode), otherwise draw once and place a coin over a
space marker, a Block followed by the clump splash loop, or a bare
space marker.  The random source is the stream rng consumed at
increasing indices, the model of the module-level random.random(). -/
def genTile (cfg : GenCfg) (destructive : Bool) (rng : ℕ → ℚ)
    (acc : GenState × ℕ) (tile : Int × Int) : GenState × ℕ :=
  match acc with
  | (st, i) =>
    if destructive || (lookupTile st.grid tile).isNone then
      if rng i < cfg.coinDensity then
        ({ st with
            collectables := st.collectables ++ [tileRect st.scale tile],
            grid := setTile st.grid tile TileObj.space,
            spaces := st.spaces ++ [tileRect st.scale tile] },
          i + 1)
      else if rng i < cfg.blockDensity then
        (clumpOffsets cfg.blockClumpRadius).foldl
          (splashStep cfg destructive tile rng)
          ({ st with
              grid := setTile st.grid tile TileObj.block,
              solids := st.solids ++ [tileRect st.scale tile] },
            i + 1)
      else
        ({ st with
            grid := setTile st.grid tile TileObj.space,
            spaces := st.spaces ++ [tileRect st.scale tile] },
          i + 1)
    else (st, i)

/-- Game.generate over a batch of tiles (the visible-tile set,
enumerated as a list). -/
def generate (cfg : GenCfg) (destructive : Bool) (rng : ℕ → ℚ)
    (tiles : List (Int × Int)) (acc : GenState × ℕ) : GenState × ℕ :=
  tiles.foldl (genTile cfg destructive rng) acc

/-- A whole run of the generator over a sequence of visible-tile
batches, one Game.generate call per tick. -/
def generateRun (cfg : GenCfg) (destructive : Bool) (rng : ℕ → ℚ)
    (batches : List (List (Int × Int))) (acc : GenState × ℕ) : GenState × ℕ :=
  batches.foldl (fun a tiles => generate cfg destructive rng tiles a) acc

/-- Looking up the key just written yields the written value. -/
lemma lookupTile_setTile_self (g : List ((Int × Int) × TileObj))
    (k : Int × Int) (v : TileObj) : lookupTile (setTile g k v) k = some v := by
  induction g with
  | nil => simp [setTile, lookupTile]
  | cons hd rest ih =>
    unfold setTile
    split_ifs with h
    · simp [lookupTile]
    · unfold lookupTile
      rw [if_neg h]
      exact ih

/-- Writing one key leaves the lookup of any other key unchanged. -/
lemma lookupTile_setTile_ne {k c : Int × Int} (hne : k ≠ c)
    (g : List ((Int × Int) × TileObj)) (v : TileObj) :
    lookupTile (setTile g k v) c = lookupTile g c := by
  induction g with
  | nil => simp [setTile, lookupTile, hne]
  | cons hd rest ih =>
    unfold setTile
    split_ifs with h
    · simp [lookupTile, hne, h]
    · unfold lookupTile
      split_ifs with h2
      · rfl
      · exact ih

/-- With a non-zero scale, distinct tiles have distinct rectangles. -/
lemma tileRect_inj {s : Int} (hs : s ≠ 0) {a b : Int × Int}
    (h : tileRect s a = tileRect s b) : a = b := by
  have h1 : a.1 * s = b.1 * s ∧ a.2 * s = b.2 * s := by
    constructor
    · exact congrArg Rect.x h
    · exact congrArg Rect.y h
  have e1 : a.1 = b.1 := mul_right_cancel₀ hs h1.1
  have e2 : a.2 = b.2 := mul_right_cancel₀ hs h1.2
  exact Prod.ext e1 e2

/-- Appending an element different from a does not change the count of a. -/
lemma count_append_ne {a b : Rect} (l : List Rect) (hne : b ≠ a) :
    List.count a (l ++ [b]) = List.count a l := by
  rw [List.count_append]
  have : List.count a [b] = 0 := by
    rw [List.count_eq_zero]
    intro hmem
    exact hne (List.mem_singleton.mp hmem).symm
  rw [this, Nat.add_zero]

/-- One splash iteration never changes the scale. -/
lemma splashStep_scale (cfg : GenCfg) (d : Bool) (tile : Int × Int)
    (rng : ℕ → ℚ) (st : GenState) (i : ℕ) (off : Int × Int) :
    (splashStep cfg d tile rng (st, i) off).1.scale = st.scale := by
  simp only [splashStep]
  split_ifs <;> rfl

/-- The splash loop never changes the scale. -/
lemma splashFold_scale (cfg : GenCfg) (d : Bool) (tile : Int × Int)
    (rng : ℕ → ℚ) :
    ∀ (offs : List (Int × Int)) (st : GenState) (i : ℕ),
      ((offs.foldl (splashStep cfg d tile rng) (st, i)).1.scale = st.scale) := by
  intro offs
  induction offs with
  | nil => intro st i; rfl
  | cons off rest ih =>
    intro st i
    have hu : (off :: rest).foldl (splashStep cfg d tile rng) (st, i) =
        rest.foldl (splashStep cfg d tile rng)
          (splashStep cfg d tile rng (st, i) off) := rfl
    rw [hu]
    cases hE : splashStep cfg d tile rng (st, i) off with
    | mk st1 i1 =>
      have h1 : st1.scale = st.scale := by
        rw [← splashStep_scale cfg d tile rng st i off, hE]
      rw [← h1]
      exact ih st1 i1

/-- Generating one tile never changes the scale. -/
lemma genTile_scale (cfg : GenCfg) (d : Bool) (rng : ℕ → ℚ) (st : GenState)
    (i : ℕ) (tile : Int × Int) :
    (genTile cfg d rng (st, i) tile).1.scale = st.scale := by
  simp only [genTile]
  split_ifs with h1 h2 h3
  · rfl
  · exact splashFold_scale cfg d tile rng (clumpOffsets cfg.blockClumpRadius) _ _
  · rfl
  · rfl

/-- A whole batch never changes the scale. -/
lemma generate_scale (cfg : GenCfg) (d : Bool) (rng : ℕ → ℚ) :
    ∀ (tiles : List (Int × Int)) (st : GenState) (i : ℕ),
      (generate cfg d rng tiles (st, i)).1.scale = st.scale := by
  intro tiles
  induction tiles with
  | nil => intro st i; rfl
  | cons hd rest ih =>
    intro st i
    have hu : generate cfg d rng (hd :: rest) (st, i) =
        generate cfg d rng rest (genTile cfg d rng (st, i) hd) := rfl
    rw [hu]
    cases hE : genTile cfg d rng (st, i) hd with
    | mk st1 i1 =>
      have h1 : st1.scale = st.scale := by
        rw [← genTile_scale cfg d rng st i hd, hE]
      rw [← h1]
      exact ih st1 i1

/-- One non-destructive splash iteration keeps a decided tile's entry,
appends no solid at its rectangle, and leaves spaces and collectables
untouched. -/
lemma splashStep_preserves (cfg : GenCfg) (rng : ℕ → ℚ) (tile c : Int × Int)
    (t : TileObj) (s0 : Int) (hs : s0 ≠ 0) (st : GenState) (i : ℕ)
    (off : Int × Int) (hsc : st.scale = s0)
    (hlk : lookupTile st.grid c = some t) :
    lookupTile (splashStep cfg false tile rng (st, i) off).1.grid c = some t ∧
    List.count (tileRect s0 c)
        (splashStep cfg false tile rng (st, i) off).1.solids =
      List.count (tileRect s0 c) st.solids ∧
    (splashStep cfg false tile rng (st, i) off).1.spaces = st.spaces ∧
    (splashStep cfg false tile rng (st, i) off).1.collectables =
      st.collectables := by
  simp only [splashStep]
  split_ifs with h1 h2
  · have hnone : lookupTile st.grid (tile.1 + off.1, tile.2 + off.2) = none := by
      simp only [Bool.false_or, Option.isNone_iff_eq_none] at h2
      exact h2
    have hkc : (tile.1 + off.1, tile.2 + off.2) ≠ c := by
      intro he
      rw [he, hlk] at hnone
      exact Option.noConfusion hnone
    dsimp only
    refine ⟨?hg, ?hcnt, rfl, rfl⟩
    · rw [lookupTile_setTile_ne hkc]
      exact hlk
    · rw [hsc]
      apply count_append_ne
      intro he
      exact hkc (tileRect_inj hs he)
  · exact ⟨hlk, rfl, rfl, rfl⟩
  · exact ⟨hlk, rfl, rfl, rfl⟩

/-- The whole non-destructive splash loop keeps a decided tile's entry,
its solid count at that tile's rectangle, and the space and collectable
groups. -/
lemma splashFold_preserves (cfg : GenCfg) (rng : ℕ → ℚ) (tile c : Int × Int)
    (t : TileObj) (s0 : Int) (hs : s0 ≠ 0) :
    ∀ (offs : List (Int × Int)) (st : GenState) (i : ℕ),
      st.scale = s0 → lookupTile st.grid c = some t →
      lookupTile
          (offs.foldl (splashStep cfg false tile rng) (st, i)).1.grid c =
        some t ∧
      List.count (tileRect s0 c)
          (offs.foldl (splashStep cfg false tile rng) (st, i)).1.solids =
        List.count (tileRect s0 c) st.solids ∧
      (offs.foldl (splashStep cfg false tile rng) (st, i)).1.spaces =
        st.spaces ∧
      (offs.foldl (splashStep cfg false tile rng) (st, i)).1.collectables =
        st.collectables := by
  intro offs
  induction offs with
  | nil => intro st i hsc hlk; exact ⟨hlk, rfl, rfl, rfl⟩
  | cons off rest ih =>
    intro st i hsc hlk
    have hu : (off :: rest).foldl (splashStep cfg false tile rng) (st, i) =
        rest.foldl (splashStep cfg false tile rng)
          (splashStep cfg false tile rng (st, i) off) := rfl
    rw [hu]
    have hP := splashStep_preserves cfg rng tile c t s0 hs st i off hsc hlk
    cases hE : splashStep cfg false tile rng (st, i) off with
    | mk st1 i1 =>
      rw [hE] at hP
      have hsc1 : st1.scale = s0 := by
        rw [← hsc, ← splashStep_scale cfg false tile rng st i off, hE]
      have hI := ih st1 i1 hsc1 hP.1
      exact ⟨hI.1, hI.2.1.trans hP.2.1, hI.2.2.1.trans hP.2.2.1,
        hI.2.2.2.trans hP.2.2.2⟩

/-- Generating one tile non-destructively keeps a decided tile's entry
and its entity counts in every group. -/
lemma genTile_preserves (cfg : GenCfg) (rng : ℕ → ℚ) (c : Int × Int)
    (t : TileObj) (s0 : Int) (hs : s0 ≠ 0) (st : GenState) (i : ℕ)
    (tile : Int × Int) (hsc : st.scale = s0)
    (hlk : lookupTile st.grid c = some t) :
    lookupTile (genTile cfg false rng (st, i) tile).1.grid c = some t ∧
    List.count (tileRect s0 c) (genTile cfg false rng (st, i) tile).1.solids =
      List.count (tileRect s0 c) st.solids ∧
    List.count (tileRect s0 c) (genTile cfg false rng (st, i) tile).1.spaces =
      List.count (tileRect s0 c) st.spaces ∧
    List.count (tileRect s0 c)
        (genTile cfg false rng (st, i) tile).1.collectables =
      List.count (tileRect s0 c) st.collectables := by
  have hnone : (false || (lookupTile st.grid tile).isNone) = true →
      tile ≠ c := by
    intro h he
    simp only [Bool.false_or, Option.isNone_iff_eq_none] at h
    rw [he, hlk] at h
    exact Option.noConfusion h
  simp only [genTile]
  split_ifs with h1 h2 h3
  · have hkc := hnone h1
    dsimp only
    refine ⟨?cg, rfl, ?cs, ?cc⟩
    · rw [lookupTile_setTile_ne hkc]
      exact hlk
    · rw [hsc]
      exact count_append_ne _ (fun he => hkc (tileRect_inj hs he))
    · rw [hsc]
      exact count_append_ne _ (fun he => hkc (tileRect_inj hs he))
  · have hkc := hnone h1
    have hsc1 : (⟨st.scale, setTile st.grid tile TileObj.block,
        st.solids ++ [tileRect st.scale tile], st.spaces,
        st.collectables⟩ : GenState).scale = s0 := hsc
    have hlk1 : lookupTile (⟨st.scale, setTile st.grid tile TileObj.block,
        st.solids ++ [tileRect st.scale tile], st.spaces,
        st.collectables⟩ : GenState).grid c = some t := by
      dsimp only
      rw [lookupTile_setTile_ne hkc]
      exact hlk
    have hF := splashFold_preserves cfg rng tile c t s0 hs
      (clumpOffsets cfg.blockClumpRadius) _ (i + 1) hsc1 hlk1
    refine ⟨hF.1, ?fs, ?fsp, ?fc⟩
    · rw [hF.2.1]
      dsimp only
      rw [hsc]
      exact count_append_ne _ (fun he => hkc (tileRect_inj hs he))
    · exact congrArg (List.count (tileRect s0 c)) hF.2.2.1
    · exact congrArg (List.count (tileRect s0 c)) hF.2.2.2
  · have hkc := hnone h1
    dsimp only
    refine ⟨?sg, rfl, ?ss, rfl⟩
    · rw [lookupTile_setTile_ne hkc]
      exact hlk
    · rw [hsc]
      exact count_append_ne _ (fun he => hkc (tileRect_inj hs he))
  · exact ⟨hlk, rfl, rfl, rfl⟩

/-- A whole non-destructive batch keeps a decided tile's entry and its
entity counts in every group. -/
lemma generate_preserves (cfg : GenCfg) (rng : ℕ → ℚ) (c : Int × Int)
    (t : TileObj) (s0 : Int) (hs : s0 ≠ 0) :
    ∀ (tiles : List (Int × Int)) (st : GenState) (i : ℕ),
      st.scale = s0 → lookupTile st.grid c = some t →
      lookupTile (generate cfg false rng tiles (st, i)).1.grid c = some t ∧
      List.count (tileRect s0 c)
          (generate cfg false rng tiles (st, i)).1.solids =
        List.count (tileRect s0 c) st.solids ∧
      List.count (tileRect s0 c)
          (generate cfg false rng tiles (st, i)).1.spaces =
        List.count (tileRect s0 c) st.spaces ∧
      List.count (tileRect s0 c)
          (generate cfg false rng tiles (st, i)).1.collectables =
        List.count (tileRect s0 c) st.collectables := by
  intro tiles
  induction tiles with
  | nil => intro st i hsc hlk; exact ⟨hlk, rfl, rfl, rfl⟩
  | cons hd rest ih =>
    intro st i hsc hlk
    have hu : generate cfg false rng (hd :: rest) (st, i) =
        generate cfg false rng rest (genTile cfg false rng (st, i) hd) := rfl
    rw [hu]
    have hP := genTile_preserves cfg rng c t s0 hs st i hd hsc hlk
    cases hE : genTile cfg false rng (st, i) hd with
    | mk st1 i1 =>
      rw [hE] at hP
      have hsc1 : st1.scale = s0 := by
        rw [← hsc, ← genTile_scale cfg false rng st i hd, hE]
      have hI := ih st1 i1 hsc1 hP.1
      exact ⟨hI.1, hI.2.1.trans hP.2.1, hI.2.2.1.trans hP.2.2.1,
        hI.2.2.2.trans hP.2.2.2⟩

/-- After non-destructive generation of a tile, that tile is decided:
every branch of the per-tile body writes it (or it already was). -/
lemma genTile_decides_self (cfg : GenCfg) (rng : ℕ → ℚ) (s0 : Int)
    (hs : s0 ≠ 0) (st : GenState) (i : ℕ) (tile : Int × Int)
    (hsc : st.scale = s0) :
    ∃ u, lookupTile (genTile cfg false rng (st, i) tile).1.grid tile =
      some u := by
  simp only [genTile]
  split_ifs with h1 h2 h3
  · exact ⟨TileObj.space, lookupTile_setTile_self _ _ _⟩
  · have hsc1 : (⟨st.scale, setTile st.grid tile TileObj.block,
        st.solids ++ [tileRect st.scale tile], st.spaces,
        st.collectables⟩ : GenState).scale = s0 := hsc
    have hlk1 : lookupTile (⟨st.scale, setTile st.grid tile TileObj.block,
        st.solids ++ [tileRect st.scale tile], st.spaces,
        st.collectables⟩ : GenState).grid tile = some TileObj.block :=
      lookupTile_setTile_self _ _ _
    exact ⟨TileObj.block,
      (splashFold_preserves cfg rng tile tile TileObj.block s0 hs
        (clumpOffsets cfg.blockClumpRadius) _ (i + 1) hsc1 hlk1).1⟩
  · exact ⟨TileObj.space, lookupTile_setTile_self _ _ _⟩
  · simp only [Bool.false_or] at h1
    cases hL : lookupTile st.grid tile with
    | none => rw [hL] at h1; simp at h1
    | some u => exact ⟨u, rfl⟩

/-- After a non-destructive batch, every tile of the batch is decided. -/
lemma generate_decides (cfg : GenCfg) (rng : ℕ → ℚ) (s0 : Int) (hs : s0 ≠ 0) :
    ∀ (tiles : List (Int × Int)) (st : GenState) (i : ℕ), st.scale = s0 →
      ∀ tile ∈ tiles,
        ∃ u, lookupTile (generate cfg false rng tiles (st, i)).1.grid tile =
          some u := by
  intro tiles
  induction tiles with
  | nil => intro st i hsc tile htile; simp at htile
  | cons hd rest ih =>
    intro st i hsc tile htile
    have hu : generate cfg false rng (hd :: rest) (st, i) =
        generate cfg false rng rest (genTile cfg false rng (st, i) hd) := rfl
    rw [hu]
    cases hE : genTile cfg false rng (st, i) hd with
    | mk st1 i1 =>
      have hsc1 : st1.scale = s0 := by
        rw [← hsc, ← genTile_scale cfg false rng st i hd, hE]
      rcases List.mem_cons.mp htile with rfl | hmem
      · obtain ⟨u, hu2⟩ := genTile_decides_self cfg rng s0 hs st i tile hsc
        rw [hE] at hu2
        exact ⟨u, (generate_preserves cfg rng tile u s0 hs rest st1 i1
          hsc1 hu2).1⟩
      · exact ih st1 i1 hsc1 tile hmem

/-- Non-destructive generation of an already-decided tile is a no-op,
and consumes no random draw. -/
lemma genTile_skip (cfg : GenCfg) (rng : ℕ → ℚ) (st : GenState) (i : ℕ)
    (tile : Int × Int) (u : TileObj) (h : lookupTile st.grid tile = some u) :
    genTile cfg false rng (st, i) tile = (st, i) := by
  simp [genTile, h]

/-- A non-destructive batch over tiles that are all decided is a no-op. -/
lemma generate_noop (cfg : GenCfg) (rng : ℕ → ℚ) :
    ∀ (tiles : List (Int × Int)) (st : GenState) (i : ℕ),
      (∀ tile ∈ tiles, ∃ u, lookupTile st.grid tile = some u) →
      generate cfg false rng tiles (st, i) = (st, i) := by
  intro tiles
  induction tiles with
  | nil => intro st i _; rfl
  | cons hd rest ih =>
    intro st i h
    obtain ⟨u, hu⟩ := h hd (List.mem_cons_self _ _)
    have hskip := genTile_skip cfg rng st i hd u hu
    have hun : generate cfg false rng (hd :: rest) (st, i) =
        generate cfg false rng rest (genTile cfg false rng (st, i) hd) := rfl
    rw [hun, hskip]
    exact ih st i (fun tile ht => h tile (List.mem_cons_of_mem _ ht))

end Runner

namespace Runner

/-- C3: in non-destructive mode, generating a batch containing an
already-decided tile leaves that tile's Grid entry unchanged and
appends no entity at that tile's rectangle to any group; and running
the same batch a second time changes nothing at all (every batch tile
is decided by the first run, so the second run skips every tile and
draws nothing). -/
theorem C3_generation_idempotent (cfg : GenCfg) (rng : ℕ → ℚ)
    (tiles : List (Int × Int)) (st : GenState) (i : ℕ) (c : Int × Int)
    (t : TileObj) (hs : st.scale ≠ 0) (_hc : c ∈ tiles)
    (hdec : lookupTile st.grid c = some t) :
    (lookupTile (generate cfg false rng tiles (st, i)).1.grid c = some t ∧
      List.count (tileRect st.scale c)
          (generate cfg false rng tiles (st, i)).1.solids =
        List.count (tileRect st.scale c) st.solids ∧
      List.count (tileRect st.scale c)
          (generate cfg false rng tiles (st, i)).1.spaces =
        List.count (tileRect st.scale c) st.spaces ∧
      List.count (tileRect st.scale c)
          (generate cfg false rng tiles (st, i)).1.collectables =
        List.count (tileRect st.scale c) st.collectables) ∧
    generate cfg false rng tiles (generate cfg false rng tiles (st, i)) =
      generate cfg false rng tiles (st, i) := by
  constructor
  · exact generate_preserves cfg rng c t st.scale hs tiles st i rfl hdec
  · cases hE : generate cfg false rng tiles (st, i) with
    | mk st1 i1 =>
      apply generate_noop
      intro tile htile
      have hdecided := generate_decides cfg rng st.scale hs tiles st i rfl
        tile htile
      rw [hE] at hdecided
      exact hdecided

/-- C3 witness: a concrete one-tile batch over a grid that already
decided that tile keeps its Block entry. -/
theorem C3_generation_idempotent_witness :
    lookupTile
        (generate ⟨1/2, 1/2, 1, 1/2⟩ false (fun _ => 1/2) [(0, 0)]
          (⟨32, [((0, 0), TileObj.block)], [], [], []⟩, 0)).1.grid
        (0, 0) =
      some TileObj.block :=
  (C3_generation_idempotent ⟨1/2, 1/2, 1, 1/2⟩ (fun _ => 1/2) [(0, 0)]
    ⟨32, [((0, 0), TileObj.block)], [], [], []⟩ 0 (0, 0) TileObj.block
    (by decide) (by decide) (by decide)).1.1

/-- C4 counterexample: Game.generate accepts no injectable random
source.  Its Python parameters are only (self, tiles, densityConfig,
destructive); the draws read the hardcoded module-level random.random(),
embedded here as the shared stream with its running position threaded
through the accumulator.  Two calls identical in every argument a caller
can supply (same batch, same densities, same destructive flag, same
Game state) but made at different positions of that shared stream
produce different entities: with the stream 0, 2, 2, ... and both
densities 1, the call at position 0 places a coin collectable at tile
(0,0) while the identical call at position 1 places none.  The
randomness is therefore not injected by the caller but read from shared
module state. -/
theorem C4_no_injectable_source_counterexample :
    (generate ⟨1, 1, 0, 0⟩ false (fun n => if n = 0 then 0 else 2) [(0, 0)]
        (⟨32, [], [], [], []⟩, 0)).1.collectables ≠
      (generate ⟨1, 1, 0, 0⟩ false (fun n => if n = 0 then 0 else 2) [(0, 0)]
        (⟨32, [], [], [], []⟩, 1)).1.collectables := by
  decide

/-- C4 amended: the generator draws from the process-global random
module (no per-call source parameter), embedded as an explicit stream
with its position threaded through the state; for a fixed stream (a
fixed seed of that global source) and an identical sequence of
visible-tile batches from the same starting state, two independent runs
produce identical Grid contents, entity groups, and stream positions. -/
theorem C4_generator_deterministic (cfg : GenCfg)
    (batches : List (List (Int × Int))) (st : GenState) (i : ℕ)
    (r1 r2 : ℕ → ℚ) (h : ∀ n, r1 n = r2 n) :
    generateRun cfg false r1 batches (st, i) =
      generateRun cfg false r2 batches (st, i) := by
  have he : r1 = r2 := funext h
  rw [he]

/-- C4 witness: a concrete two-batch run against itself. -/
theorem C4_generator_deterministic_witness :
    generateRun ⟨1/2, 1/2, 1, 1/2⟩ false (fun _ => 1/2) [[(0, 0)], [(1, 0)]]
        (⟨32, [], [], [], []⟩, 0) =
      generateRun ⟨1/2, 1/2, 1, 1/2⟩ false (fun _ => 1/2) [[(0, 0)], [(1, 0)]]
        (⟨32, [], [], [], []⟩, 0) :=
  C4_generator_deterministic ⟨1/2, 1/2, 1, 1/2⟩ [[(0, 0)], [(1, 0)]]
    ⟨32, [], [], [], []⟩ 0 (fun _ => 1/2) (fun _ => 1/2) (fun _ => rfl)

end Runner
